import Mathlib

/-!
Verification development for the exposure-set ingestion and automatic
anti-ghosting engine of LuminanceHDR (src/HdrWizard/HdrCreationManager.cpp).

The C++ code computes with 32-bit floats; the embedding models float samples
by exact rationals (ℚ).  The C library function `logf`, which has no exact
rational counterpart, is modelled by an explicit function parameter `lg`;
every property proved below holds for an arbitrary such function.  Integer
casts, integer division and array indexing are modelled exactly.
-/

/-- Maximum RGB channel value (source: `static const float max_rgb = 65535.0f`). -/
def max_rgb : ℚ := 65535

/-- Maximum lightness value (source: `static const float max_lightness = 65535.0f`). -/
def max_lightness : ℚ := 65535

/-- Fixed patch-grid resolution (source: `static const int gridSize = 40`). -/
def gridSize : ℕ := 40

/-- The C++ `std::max` on rational samples, written with an explicit `if` so
that the kernel can evaluate it on concrete inputs. -/
def fmax (a b : ℚ) : ℚ := if a ≤ b then b else a

/-- The C++ `std::min` on rational samples. -/
def fmin (a b : ℚ) : ℚ := if a ≤ b then a else b

theorem fmax_eq_max (a b : ℚ) : fmax a b = max a b := by
  unfold fmax
  rcases le_total a b with h | h
  · simp [h, max_eq_right]
  · rcases eq_or_lt_of_le h with rfl | hlt
    · simp
    · rw [if_neg (not_le.mpr hlt), max_eq_left h]

theorem fmin_eq_min (a b : ℚ) : fmin a b = min a b := by
  unfold fmin
  rcases le_total a b with h | h
  · simp [h, min_eq_left]
  · rcases eq_or_lt_of_le h with rfl | hlt
    · simp
    · rw [if_neg (not_le.mpr hlt), min_eq_right h]

/-- RGB → HSL conversion, a direct transcription of `rgb2hsl` (lines 200-230).
`v` is the channel maximum, `m` the minimum, lightness `l = (m+v)/2`; if
`l ≤ 0` the function returns with `h = s = 0`; if `delta = v - m` is zero it
returns with `h = s = 0`; otherwise the saturation denominator depends on
`l ≤ 0.5` and the hue is the sextant-based case split of the source, finally
divided by 6. -/
def rgb2hsl (r g b : ℚ) : ℚ × ℚ × ℚ :=
  let v := fmax (fmax r g) b
  let m := fmin (fmin r g) b
  let l := (m + v) / 2
  if l ≤ 0 then (0, 0, l)
  else
    let vm := v - m
    if 0 < vm then
      let s := vm / (if l ≤ 1/2 then v + m else 2 - v - m)
      let r2 := (v - r) / vm
      let g2 := (v - g) / vm
      let b2 := (v - b) / vm
      let h :=
        if r = v then (if g = m then 5 + b2 else 1 - g2)
        else if g = v then (if b = m then 1 + r2 else 3 - b2)
        else (if r = m then 3 + g2 else 5 - r2)
      (h / 6, s, l)
    else (0, 0, l)

/-- Truncation toward zero, modelling the C cast `(int)x` applied to a float. -/
def cTrunc (q : ℚ) : ℤ := if q < 0 then -⌊-q⌋ else ⌊q⌋

/-- HSL → RGB conversion, a direct transcription of `hsl2rgb` (lines 232-288).
The output channels are initialised to `l`; when the reconstructed value `v`
is positive the sextant `(int)(h*6)` selects one of six cases; a sextant
outside `0..5` falls through the C `switch` and leaves the channels at `l`. -/
def hsl2rgb (h sl l : ℚ) : ℚ × ℚ × ℚ :=
  let v := if l ≤ 1/2 then l * (1 + sl) else l + sl - l * sl
  if 0 < v then
    let m := l + l - v
    let sv := (v - m) / v
    let h6 := h * 6
    let sextant := cTrunc h6
    let fract := h6 - (sextant : ℚ)
    let vsf := v * sv * fract
    let mid1 := m + vsf
    let mid2 := v - vsf
    if sextant = 0 then (v, mid1, m)
    else if sextant = 1 then (mid2, v, m)
    else if sextant = 2 then (m, v, mid1)
    else if sextant = 3 then (m, mid2, v)
    else if sextant = 4 then (mid1, m, v)
    else if sextant = 5 then (v, m, mid2)
    else (l, l, l)
  else (l, l, l)

/-- Round trip RGB → HSL → RGB. -/
def roundTrip (r g b : ℚ) : ℚ × ℚ × ℚ :=
  let hsl := rgb2hsl r g b
  hsl2rgb hsl.1 hsl.2.1 hsl.2.2

/-- Channel maximum of an RGB triple, as computed by `rgb2hsl`. -/
def maxRGB (r g b : ℚ) : ℚ := fmax (fmax r g) b

/-- Channel minimum of an RGB triple, as computed by `rgb2hsl`. -/
def minRGB (r g b : ℚ) : ℚ := fmin (fmin r g) b

/-- Lightness of an RGB triple, `(min + max) / 2`, as computed by `rgb2hsl`. -/
def lightnessRGB (r g b : ℚ) : ℚ := (minRGB r g b + maxRGB r g b) / 2

/-- Lightness of a packed RGB triple. -/
def lightnessT (c : ℚ × ℚ × ℚ) : ℚ := lightnessRGB c.1 c.2.1 c.2.2

example : roundTrip 3 2 1 = (3, 2, 1) := by
  norm_num [roundTrip, rgb2hsl, hsl2rgb, fmax, fmin, cTrunc]

example : rgb2hsl 1 2 1 = (1/3, -1, 3/2) := by
  norm_num [rgb2hsl, fmax, fmin]

/-! ### EV normalization (C1) -/

theorem le_fmax_left (a b : ℚ) : a ≤ fmax a b := by
  rw [fmax_eq_max]; exact le_max_left a b

theorem le_fmax_right (a b : ℚ) : b ≤ fmax a b := by
  rw [fmax_eq_max]; exact le_max_right a b

theorem fmin_le_left (a b : ℚ) : fmin a b ≤ a := by
  rw [fmin_eq_min]; exact min_le_left a b

theorem fmin_le_right (a b : ℚ) : fmin a b ≤ b := by
  rw [fmin_eq_min]; exact min_le_right a b

theorem le_foldl_fmax (l : List ℚ) : ∀ a : ℚ, a ≤ l.foldl fmax a := by
  induction l with
  | nil => intro a; simp
  | cons b t ih =>
    intro a
    exact le_trans (le_fmax_left a b) (ih (fmax a b))

theorem mem_le_foldl_fmax (l : List ℚ) (x : ℚ) (hx : x ∈ l) :
    ∀ a : ℚ, x ≤ l.foldl fmax a := by
  induction l with
  | nil => cases hx
  | cons b t ih =>
    intro a
    rcases List.mem_cons.mp hx with rfl | hmem
    · exact le_trans (le_fmax_right a x) (le_foldl_fmax t (fmax a x))
    · exact ih hmem (fmax a b)

theorem foldl_fmax_choice (l : List ℚ) : ∀ a : ℚ,
    l.foldl fmax a = a ∨ l.foldl fmax a ∈ l := by
  induction l with
  | nil => intro a; exact Or.inl rfl
  | cons b t ih =>
    intro a
    rcases ih (fmax a b) with h | h
    · rw [List.foldl_cons, h]
      unfold fmax
      split
      · exact Or.inr (List.mem_cons_self b t)
      · exact Or.inl rfl
    · exact Or.inr (List.mem_cons_of_mem b h)

theorem foldl_fmin_le (l : List ℚ) : ∀ a : ℚ, l.foldl fmin a ≤ a := by
  induction l with
  | nil => intro a; simp
  | cons b t ih =>
    intro a
    exact le_trans (ih (fmin a b)) (fmin_le_left a b)

theorem foldl_fmin_le_mem (l : List ℚ) (x : ℚ) (hx : x ∈ l) :
    ∀ a : ℚ, l.foldl fmin a ≤ x := by
  induction l with
  | nil => cases hx
  | cons b t ih =>
    intro a
    rcases List.mem_cons.mp hx with rfl | hmem
    · exact le_trans (foldl_fmin_le t (fmin a x)) (fmin_le_right a x)
    · exact ih hmem (fmin a b)

theorem foldl_fmin_choice (l : List ℚ) : ∀ a : ℚ,
    l.foldl fmin a = a ∨ l.foldl fmin a ∈ l := by
  induction l with
  | nil => intro a; exact Or.inl rfl
  | cons b t ih =>
    intro a
    rcases ih (fmin a b) with h | h
    · rw [List.foldl_cons, h]
      unfold fmin
      split
      · exact Or.inl rfl
      · exact Or.inr (List.mem_cons_self b t)
    · exact Or.inr (List.mem_cons_of_mem b h)

/-- Running maximum of the EV values, seeded with `-20`
(source: `float max=-20` and the loop `if (ev_val > max) max = ev_val`). -/
def evMax (evs : List ℚ) : ℚ := evs.foldl fmax (-20)

/-- Running minimum of the EV values, seeded with `+20`
(source: `float min=+20` and the loop `if (ev_val < min) min = ev_val`). -/
def evMin (evs : List ℚ) : ℚ := evs.foldl fmin 20

/-- EV range clamping (`HdrCreationManager::checkEVvalues`, lines 1156-1181),
modelled in log2 space: the list holds `ev[i] = log2(expotimes[i])` for the
items with a known exposure time (items whose exposure time is the `-1`
sentinel produce NaN in the float code and never update the running max/min,
so they do not participate).  The source stores `exp2f(new_ev)` back into
`expotimes`; since `exp2`/`log2` are mutually inverse on positive reals this
is exactly a shift of the EV list.  If `max > 10` every EV is shifted down by
`max - 10`; otherwise, if `min < -10`, every EV is shifted up by `-(min+10)`. -/
def checkEVvalues (evs : List ℚ) : List ℚ :=
  if 10 < evMax evs then evs.map (fun e => e - (evMax evs - 10))
  else if evMin evs < -10 then evs.map (fun e => e - (evMin evs + 10))
  else evs

/-- The uniform shift applied by `checkEVvalues`, split out of the branch
structure of the source for the statement of C1. -/
def evShift (evs : List ℚ) : ℚ :=
  if 10 < evMax evs then evMax evs - 10
  else if evMin evs < -10 then evMin evs + 10
  else 0

/-- C1, counterexample: on EVs `[12, -9]` (exposure times `2^12` and `2^-9`)
the max-branch fires and shifts both down by 2, leaving `-11 < -10`, so the
claimed invariant that every post-normalization EV lies in `[-10, 10]` is
false. -/
theorem C1_counterexample :
    ¬ (∀ e ∈ checkEVvalues [12, -9], -10 ≤ e ∧ e ≤ 10) := by
  intro hcl
  have hev : checkEVvalues [12, -9] = [10, -11] := by
    norm_num [checkEVvalues, evMax, evMin, List.foldl, fmax, fmin]
  rw [hev] at hcl
  have h := hcl (-11) (by simp)
  linarith [h.1]

/-- C1 (amended): `checkEVvalues` applies one uniform shift in log2 space
(`max-10` when `max > 10`, else `min+10` when `min < -10`, else `0`), with the
max-check taking priority and only one branch firing, so all pairwise EV
differences are preserved; and — provided the EV spread `max - min` is at most
20, which the single shift cannot otherwise fix — every post-normalization EV
of an item with known exposure time lies in `[-10, 10]`. -/
theorem C1_ev_normalization_amended (evs : List ℚ)
    (hspread : ∀ a ∈ evs, ∀ b ∈ evs, a - b ≤ 20) :
    checkEVvalues evs = evs.map (fun e => e - evShift evs) ∧
    (10 < evMax evs → evShift evs = evMax evs - 10) ∧
    (evMax evs ≤ 10 → evMin evs < -10 → evShift evs = evMin evs + 10) ∧
    (evMax evs ≤ 10 → -10 ≤ evMin evs → evShift evs = 0) ∧
    (∀ e ∈ checkEVvalues evs, -10 ≤ e ∧ e ≤ 10) := by
  refine ⟨?_, ?_, ?_, ?_, ?_⟩
  · unfold checkEVvalues evShift
    split_ifs with h1 h2
    · rfl
    · rfl
    · simp
  · intro h1
    unfold evShift
    rw [if_pos h1]
  · intro h1 h2
    unfold evShift
    rw [if_neg (not_lt.mpr h1), if_pos h2]
  · intro h1 h2
    unfold evShift
    rw [if_neg (not_lt.mpr h1), if_neg (not_lt.mpr h2)]
  · intro e he
    unfold checkEVvalues at he
    split_ifs at he with h1 h2
    · obtain ⟨e₀, he₀, rfl⟩ := List.mem_map.mp he
      have hub : e₀ ≤ evMax evs := mem_le_foldl_fmax evs e₀ he₀ (-20)
      have hmem : evMax evs ∈ evs := by
        rcases foldl_fmax_choice evs (-20) with h | h
        · exfalso
          unfold evMax at h1
          rw [h] at h1
          linarith
        · exact h
      have hlb : evMax evs - e₀ ≤ 20 := hspread (evMax evs) hmem e₀ he₀
      constructor <;> linarith
    · obtain ⟨e₀, he₀, rfl⟩ := List.mem_map.mp he
      have hlb : evMin evs ≤ e₀ := foldl_fmin_le_mem evs e₀ he₀ 20
      have hmem : evMin evs ∈ evs := by
        rcases foldl_fmin_choice evs 20 with h | h
        · exfalso
          unfold evMin at h2
          rw [h] at h2
          linarith
        · exact h
      have hub : e₀ - evMin evs ≤ 20 := hspread e₀ he₀ (evMin evs) hmem
      constructor <;> linarith
    · have hub : e ≤ evMax evs := mem_le_foldl_fmax evs e he (-20)
      have hlb : evMin evs ≤ e := foldl_fmin_le_mem evs e he 20
      push_neg at h1 h2
      constructor <;> linarith

/-- Witness for C1 at the EV list `[12, -7]`: spread 19 ≤ 20, max-branch
shifts both EVs down by 2 into `[10, -9] ⊆ [-10, 10]`. -/
theorem C1_ev_normalization_witness :
    checkEVvalues [12, -7] = [12, -7].map (fun e => e - evShift [12, -7]) ∧
    (10 < evMax [12, -7] → evShift [12, -7] = evMax [12, -7] - 10) ∧
    (evMax [12, -7] ≤ 10 → evMin [12, -7] < -10 →
      evShift [12, -7] = evMin [12, -7] + 10) ∧
    (evMax [12, -7] ≤ 10 → -10 ≤ evMin [12, -7] → evShift [12, -7] = 0) ∧
    (∀ e ∈ checkEVvalues [12, -7], -10 ≤ e ∧ e ≤ 10) :=
  C1_ev_normalization_amended [12, -7] (by
    intro a ha b hb
    fin_cases ha <;> fin_cases hb <;> norm_num)

/-! ### Exposure loading (C9) -/

/-- The filenames scheduled for decoding by `HdrCreationManager::loadFiles`
(lines 148-187): each candidate filename is looked up in the already-loaded
items `m_data` by exact string comparison (`checkFileName`, which uses
`QString::compare == 0`), and only filenames with no match are scheduled. -/
def scheduledLoads (data : List String) (filenames : List String) : List String :=
  filenames.filter (fun i => !(data.any (fun d => d == i)))

/-- The item set after `HdrCreationManager::loadFiles`: the scheduled items are
decoded and those that decoded successfully (`isValid`, modelled by the
predicate `valid`) are appended to `m_data` in request order. -/
def loadFiles (data : List String) (filenames : List String)
    (valid : String → Bool) : List String :=
  data ++ (scheduledLoads data filenames).filter valid

/-- C9: a path already present in the set is never scheduled for a second
decode, and after `loadFiles` the set still contains exactly one item for that
path if it contained exactly one before. -/
theorem C9_load_idempotent (data filenames : List String)
    (valid : String → Bool) (p : String) (hp : p ∈ data) :
    p ∉ scheduledLoads data filenames ∧
    (data.count p = 1 → (loadFiles data filenames valid).count p = 1) := by
  have hsched : p ∉ scheduledLoads data filenames := by
    intro hmem
    have h := List.of_mem_filter hmem
    rw [Bool.not_eq_true'] at h
    rw [List.any_eq_false] at h
    exact absurd (by simp : (p == p) = true) (h p hp)
  refine ⟨hsched, ?_⟩
  intro hcount
  have hnot : p ∉ (scheduledLoads data filenames).filter valid := fun hmem =>
    hsched (List.mem_of_mem_filter hmem)
  unfold loadFiles
  rw [List.count_append, hcount, List.count_eq_zero.mpr hnot]

/-- Witness for C9: loading `["a", "b"]` when `"a"` is already the only item. -/
theorem C9_load_idempotent_witness :
    "a" ∉ scheduledLoads ["a"] ["a", "b"] ∧
    (List.count "a" ["a"] = 1 →
      List.count "a" (loadFiles ["a"] ["a", "b"] (fun _ => true)) = 1) :=
  C9_load_idempotent ["a"] ["a", "b"] (fun _ => true) "a" (by simp)

/-! ### Input-type consistency (C7) -/

/-- Input kind of the exposure set (source: `UNKNOWN_INPUT_TYPE`,
`LDR_INPUT_TYPE`, `MDR_INPUT_TYPE`). -/
inductive InputType where
  | unknown : InputType
  | ldr : InputType
  | mdr : InputType
deriving DecidableEq

/-- State of `HdrCreationManager` relevant to item arrival: the fixed input
kind, the sticky loading-error flag, and the preallocated per-index image
slots (`ldrImagesList` / `listmdr*`, a slot records the stored image's
width × height, `none` standing for a NULL entry). -/
structure HdrMgr where
  inputType : InputType
  loadingError : Bool
  ldrImages : List (Option (ℕ × ℕ))
  mdrImages : List (Option (ℕ × ℕ))
deriving DecidableEq

/-- Size-consistency check of `HdrCreationManager::ldrsHaveSameSize`
(lines 974-989): every non-NULL stored image must match the new dimensions. -/
def ldrsHaveSameSize (imgs : List (Option (ℕ × ℕ))) (w h : ℕ) : Bool :=
  imgs.all (fun o => match o with
    | none => true
    | some wh => wh.1 == w && wh.2 == h)

/-- Arrival of an LDR image (`HdrCreationManager::ldrReady`, lines 911-946):
a sticky error rejects the item outright; an MDR-typed set raises the type
mismatch and sets the error; otherwise the set kind becomes LDR, the size
check may raise an error, and on success the image is stored at its index. -/
def ldrReady (st : HdrMgr) (index w h : ℕ) : HdrMgr :=
  if st.loadingError then st
  else if st.inputType = InputType.mdr then { st with loadingError := true }
  else
    let st1 := { st with inputType := InputType.ldr }
    if ldrsHaveSameSize st1.ldrImages w h then
      { st1 with ldrImages := st1.ldrImages.set index (some (w, h)) }
    else { st1 with loadingError := true }

/-- Arrival of an MDR frame (`HdrCreationManager::mdrReady`, lines 869-909),
symmetric to `ldrReady`; note the source sets `inputType = MDR_INPUT_TYPE`
before the size check, exactly as modelled. -/
def mdrReady (st : HdrMgr) (index w h : ℕ) : HdrMgr :=
  if st.loadingError then st
  else if st.inputType = InputType.ldr then { st with loadingError := true }
  else
    let st1 := { st with inputType := InputType.mdr }
    if ldrsHaveSameSize st1.mdrImages w h then
      { st1 with mdrImages := st1.mdrImages.set index (some (w, h)) }
    else { st1 with loadingError := true }

/-- C7: after an LDR item is accepted, an arriving MDR item raises the type
mismatch: the error flag is set, the previously accepted LDR item remains
stored unchanged, the MDR item is never added, and every subsequently
arriving item (of either kind) is rejected with the state unchanged while the
error is set. -/
theorem C7_type_mismatch (st : HdrMgr) (i1 i2 w1 h1 w2 h2 : ℕ)
    (hErr : st.loadingError = false) (hTy : st.inputType ≠ InputType.mdr)
    (hSz : ldrsHaveSameSize st.ldrImages w1 h1 = true)
    (hIdx : i1 < st.ldrImages.length) :
    (ldrReady st i1 w1 h1).loadingError = false ∧
    (mdrReady (ldrReady st i1 w1 h1) i2 w2 h2).loadingError = true ∧
    (mdrReady (ldrReady st i1 w1 h1) i2 w2 h2).ldrImages.get? i1 =
      some (some (w1, h1)) ∧
    (mdrReady (ldrReady st i1 w1 h1) i2 w2 h2).mdrImages = st.mdrImages ∧
    (∀ i w h,
      ldrReady (mdrReady (ldrReady st i1 w1 h1) i2 w2 h2) i w h =
        mdrReady (ldrReady st i1 w1 h1) i2 w2 h2 ∧
      mdrReady (mdrReady (ldrReady st i1 w1 h1) i2 w2 h2) i w h =
        mdrReady (ldrReady st i1 w1 h1) i2 w2 h2) := by
  have hst1 : ldrReady st i1 w1 h1 =
      { st with inputType := InputType.ldr,
                ldrImages := st.ldrImages.set i1 (some (w1, h1)) } := by
    unfold ldrReady
    rw [hErr]
    simp only [Bool.false_eq_true, if_false, if_neg hTy, if_pos hSz]
  have hst2 : mdrReady (ldrReady st i1 w1 h1) i2 w2 h2 =
      { st with inputType := InputType.ldr, loadingError := true,
                ldrImages := st.ldrImages.set i1 (some (w1, h1)) } := by
    rw [hst1]
    unfold mdrReady
    simp [hErr]
  refine ⟨by rw [hst1]; exact hErr, by rw [hst2], ?_, by rw [hst2], ?_⟩
  · rw [hst2]
    simp only
    rw [List.get?_eq_getElem?, List.getElem?_set_self hIdx]
  · intro i w h
    rw [hst2]
    constructor
    · unfold ldrReady
      simp
    · unfold mdrReady
      simp

/-- Witness for C7: a fresh two-slot manager accepts a 4×3 LDR image at index
0, then rejects a 4×3 MDR frame. -/
theorem C7_type_mismatch_witness :
    (ldrReady ⟨InputType.unknown, false, [none, none], [none, none]⟩
        0 4 3).loadingError = false ∧
    (mdrReady (ldrReady ⟨InputType.unknown, false, [none, none], [none, none]⟩
        0 4 3) 1 4 3).loadingError = true ∧
    (mdrReady (ldrReady ⟨InputType.unknown, false, [none, none], [none, none]⟩
        0 4 3) 1 4 3).ldrImages.get? 0 = some (some (4, 3)) ∧
    (mdrReady (ldrReady ⟨InputType.unknown, false, [none, none], [none, none]⟩
        0 4 3) 1 4 3).mdrImages = [none, none] ∧
    (∀ i w h,
      ldrReady (mdrReady (ldrReady
          ⟨InputType.unknown, false, [none, none], [none, none]⟩
          0 4 3) 1 4 3) i w h =
        mdrReady (ldrReady ⟨InputType.unknown, false, [none, none], [none, none]⟩
          0 4 3) 1 4 3 ∧
      mdrReady (mdrReady (ldrReady
          ⟨InputType.unknown, false, [none, none], [none, none]⟩
          0 4 3) 1 4 3) i w h =
        mdrReady (ldrReady ⟨InputType.unknown, false, [none, none], [none, none]⟩
          0 4 3) 1 4 3) :=
  C7_type_mismatch ⟨InputType.unknown, false, [none, none], [none, none]⟩
    0 1 4 3 4 3 rfl (by simp) (by simp [ldrsHaveSameSize]) (by simp)

/-! ### Frames and ghost detection (C2, C3, C5, C6) -/

/-- A 2D float sample plane (`pfs::Array2Df`): explicit dimensions plus the
sample at each coordinate. -/
structure Array2Df where
  cols : ℕ
  rows : ℕ
  data : ℕ → ℕ → ℚ

instance : Inhabited Array2Df := ⟨⟨0, 0, fun _ _ => 0⟩⟩

/-- Row-major sum of `f` over the rectangle `0 ≤ x < w`, `0 ≤ y < h`. -/
def sumGrid (w h : ℕ) (f : ℕ → ℕ → ℚ) : ℚ :=
  ((List.range h).map (fun y => ((List.range w).map (fun x => f x y)).sum)).sum

/-- Mean lightness over a frame (`averageLightness` over `Array2Df`,
lines 381-397): the `rgb2hsl` lightness summed over all pixels, divided by
the pixel count. -/
def averageLightness (R G B : Array2Df) : ℚ :=
  sumGrid R.cols R.rows
    (fun x y => (rgb2hsl (R.data x y) (G.data x y) (B.data x y)).2.2) /
    ((R.cols * R.rows : ℕ) : ℚ)

/-- Maximum lightness over a frame (`maxLightness`, lines 363-379): a running
maximum starting from 0. -/
def maxLightnessF (R G B : Array2Df) : ℚ :=
  (List.range R.rows).foldl (fun acc y =>
    (List.range R.cols).foldl (fun acc2 x =>
      fmax acc2 (rgb2hsl (R.data x y) (G.data x y) (B.data x y)).2.2) acc) 0

/-- Log-ratio residual of one channel pair (`comparePatches` inner loop,
lines 433-446): the deltaEV-compensated difference of logs, with the operand
order flipped on the sign of deltaEV; `lg` models `logf`. -/
def logRatio (lg : ℚ → ℚ) (deltaEV a1 a2 : ℚ) : ℚ :=
  if deltaEV < 0 then lg a1 - lg a2 - deltaEV else lg a2 - lg a1 + deltaEV

/-- Whether a pixel is an outlier on some channel: `|logRatio|` strictly
exceeds `threshold1 = 0.7 * |deltaEV|` (the float literal `0.7f` is modelled
by `7/10`). -/
def pixelIsOutlier (lg : ℚ → ℚ) (R1 G1 B1 R2 G2 B2 : Array2Df)
    (deltaEV : ℚ) (x y : ℕ) : Bool :=
  decide (7/10 * |deltaEV| < |logRatio lg deltaEV (R1.data x y) (R2.data x y)|) ||
  decide (7/10 * |deltaEV| < |logRatio lg deltaEV (G1.data x y) (G2.data x y)|) ||
  decide (7/10 * |deltaEV| < |logRatio lg deltaEV (B1.data x y) (B2.data x y)|)

/-- Number of outlier pixels in grid cell `(i, j)` whose pixel extent is
`gX × gY` (the two loops of `comparePatches`, which run `x` from `i*gX` to
`(i+1)*gX` and `y` from `j*gY` to `(j+1)*gY`). -/
def cellOutlierCount (lg : ℚ → ℚ) (R1 G1 B1 R2 G2 B2 : Array2Df)
    (i j gX gY : ℕ) (deltaEV : ℚ) : ℕ :=
  ((List.range gY).map (fun dy =>
    ((List.range gX).filter (fun dx =>
      pixelIsOutlier lg R1 G1 B1 R2 G2 B2 deltaEV
        (i * gX + dx) (j * gY + dy))).length)).sum

/-- Cell comparison (`comparePatches` over `Array2Df`, lines 424-459): the
cell is flagged when the outlier fraction strictly exceeds the caller's
`threshold`.  In ℚ the degenerate `0/0` is 0 and the comparison is false; in
the float source the same degenerate case yields NaN, and `NaN > threshold`
is likewise false for any threshold. -/
def comparePatches (lg : ℚ → ℚ) (R1 G1 B1 R2 G2 B2 : Array2Df)
    (i j gX gY : ℕ) (threshold deltaEV : ℚ) : Bool :=
  decide (threshold <
    ((cellOutlierCount lg R1 G1 B1 R2 G2 B2 i j gX gY deltaEV : ℕ) : ℚ) /
      ((gX * gY : ℕ) : ℚ))

/-- Hue of one pixel of exposure `w` in the stack (the `rgb2hsl` call inside
`hueSquaredMean`). -/
def pixelHue (lR lG lB : List Array2Df) (w x y : ℕ) : ℚ :=
  (rgb2hsl ((lR.getD w default).data x y) ((lG.getD w default).data x y)
    ((lB.getD w default).data x y)).1

/-- Mean of a list of hues (`hueMean`, lines 301-308). -/
def hueMean (hues : List ℚ) : ℚ := hues.sum / (hues.length : ℚ)

/-- Mean over all pixels of the squared deviation of exposure `k`'s hue from
the cross-exposure mean hue at that pixel (`hueSquaredMean` over `Array2Df`
lists, lines 310-338).  Width and height are read off the first frame. -/
def hueSquaredMean (lR lG lB : List Array2Df) (k : ℕ) : ℚ :=
  let width := (lR.headD default).cols
  let height := (lR.headD default).rows
  let size := lR.length
  sumGrid width height (fun x y =>
    (hueMean ((List.range size).map (fun w => pixelHue lR lG lB w x y)) -
      pixelHue lR lG lB k x y) ^ 2) / ((width * height : ℕ) : ℚ)

/-- Maximum entry of a float array (the `std::max_element` call inside
`findIndex`; for a nonempty list this is the list maximum). -/
def listMax (l : List ℚ) : ℚ := l.foldl fmax (l.headD 0)

/-- First index whose entry equals the maximum (`findIndex`, lines 290-299);
like the C loop, it returns `size` when no entry matches (impossible for a
nonempty list). -/
def findIndex (l : List ℚ) : ℕ := l.findIdx (fun x => decide (x = listMax l))

/-- `deltaEV` between exposures `h0` and `hh`
(`doAutoAntiGhostingMDR`, line 1670): `logf(expotimes[h0]) - logf(expotimes[hh])`. -/
def deltaEVof (lg : ℚ → ℚ) (expotimes : List ℚ) (h0 hh : ℕ) : ℚ :=
  lg (expotimes.getD h0 0) - lg (expotimes.getD hh 0)

/-- The flag of grid cell `(i, j)` after the detection loops of
`doAutoAntiGhostingMDR` (lines 1630-1678): the per-cell pixel extent is
`gX = width / gridSize`, `gY = height / gridSize` in C integer division, the
reference `h0` is `findIndex` of the `HE` scores, and the flag accumulates
(logical OR) `comparePatches` over every non-reference exposure. -/
def patchesMDR (lg : ℚ → ℚ) (lR lG lB : List Array2Df)
    (expotimes : List ℚ) (threshold : ℚ) (i j : ℕ) : Bool :=
  let size := lR.length
  let gX := (lR.headD default).cols / gridSize
  let gY := (lR.headD default).rows / gridSize
  let HE := (List.range size).map (fun k => hueSquaredMean lR lG lB k)
  let h0 := findIndex HE
  (List.range size).any (fun hh =>
    decide (hh ≠ h0) &&
    comparePatches lg (lR.getD h0 default) (lG.getD h0 default)
      (lB.getD h0 default) (lR.getD hh default) (lG.getD hh default)
      (lB.getD hh default) i j gX gY threshold
      (deltaEVof lg expotimes h0 hh))

theorem comparePatches_eq_false_of_count_zero (lg : ℚ → ℚ)
    (R1 G1 B1 R2 G2 B2 : Array2Df) (i j gX gY : ℕ) (th dEV : ℚ)
    (hth : 0 ≤ th)
    (hc : cellOutlierCount lg R1 G1 B1 R2 G2 B2 i j gX gY dEV = 0) :
    comparePatches lg R1 G1 B1 R2 G2 B2 i j gX gY th dEV = false := by
  unfold comparePatches
  rw [hc]
  simp only [Nat.cast_zero, zero_div]
  exact decide_eq_false (not_lt.mpr hth)

theorem comparePatches_mono (lg : ℚ → ℚ) (R1 G1 B1 R2 G2 B2 : Array2Df)
    (i j gX gY : ℕ) (t1 t2 dEV : ℚ) (hle : t1 ≤ t2) :
    comparePatches lg R1 G1 B1 R2 G2 B2 i j gX gY t2 dEV ≤
      comparePatches lg R1 G1 B1 R2 G2 B2 i j gX gY t1 dEV := by
  unfold comparePatches
  rw [Bool.le_iff_imp]
  intro h2
  rw [decide_eq_true_iff] at h2 ⊢
  exact lt_of_le_of_lt hle h2

theorem any_le_any {α : Type} (l : List α) (f g : α → Bool)
    (h : ∀ a ∈ l, f a ≤ g a) : l.any f ≤ l.any g := by
  rw [Bool.le_iff_imp]
  intro hf
  rw [List.any_eq_true] at hf ⊢
  obtain ⟨a, ha, hfa⟩ := hf
  exact ⟨a, ha, Bool.le_iff_imp.mp (h a ha) hfa⟩

/-- C5: for a fixed exposure set, raising the ghost-detection threshold never
turns an unflagged cell into a flagged one — as booleans, the flag at the
larger threshold `t2` is at most the flag at the smaller threshold `t1`, so
every cell flagged at `t2` is also flagged at `t1` and the flagged count is
antitone in the threshold. -/
theorem C5_threshold_monotone (lg : ℚ → ℚ) (lR lG lB : List Array2Df)
    (expotimes : List ℚ) (t1 t2 : ℚ) (i j : ℕ) (hle : t1 ≤ t2) :
    patchesMDR lg lR lG lB expotimes t2 i j ≤
      patchesMDR lg lR lG lB expotimes t1 i j := by
  unfold patchesMDR
  apply any_le_any
  intro hh _
  cases hdec : decide (hh ≠ findIndex
      ((List.range lR.length).map (fun k => hueSquaredMean lR lG lB k))) with
  | false => simp [hdec]
  | true =>
    simp only [hdec, Bool.true_and]
    exact comparePatches_mono lg _ _ _ _ _ _ i j _ _ t1 t2 _ hle

/-- Witness for C5 at a concrete one-exposure set and thresholds 0 ≤ 1/2. -/
theorem C5_threshold_monotone_witness :
    patchesMDR (fun q => q) [⟨40, 40, fun _ _ => 1⟩] [⟨40, 40, fun _ _ => 1⟩]
        [⟨40, 40, fun _ _ => 1⟩] [1] (1/2) 0 0 ≤
      patchesMDR (fun q => q) [⟨40, 40, fun _ _ => 1⟩] [⟨40, 40, fun _ _ => 1⟩]
        [⟨40, 40, fun _ _ => 1⟩] [1] 0 0 0 :=
  C5_threshold_monotone (fun q => q) [⟨40, 40, fun _ _ => 1⟩]
    [⟨40, 40, fun _ _ => 1⟩] [⟨40, 40, fun _ _ => 1⟩] [1] 0 (1/2) 0 0
    (by norm_num)

theorem pixelIsOutlier_self (lg : ℚ → ℚ) (R G B : Array2Df) (x y : ℕ) :
    pixelIsOutlier lg R G B R G B 0 x y = false := by
  unfold pixelIsOutlier logRatio
  norm_num

theorem comparePatches_self (lg : ℚ → ℚ) (R G B : Array2Df)
    (i j gX gY : ℕ) (th : ℚ) (hth : 0 ≤ th) :
    comparePatches lg R G B R G B i j gX gY th 0 = false := by
  apply comparePatches_eq_false_of_count_zero lg R G B R G B i j gX gY th 0 hth
  unfold cellOutlierCount
  have hmap : ((List.range gY).map (fun dy =>
      ((List.range gX).filter (fun dx =>
        pixelIsOutlier lg R G B R G B 0 (i * gX + dx) (j * gY + dy))).length)) =
      (List.range gY).map (fun _ => 0) := by
    apply List.map_congr_left
    intro dy _
    rw [List.filter_eq_nil_iff.mpr]
    · rfl
    · intro dx _
      rw [pixelIsOutlier_self]
      simp
  rw [hmap]
  simp

theorem listMax_mem (l : List ℚ) (hne : l ≠ []) : listMax l ∈ l := by
  cases l with
  | nil => exact absurd rfl hne
  | cons x t =>
    unfold listMax
    simp only [List.headD_cons, List.foldl_cons]
    have hxx : fmax x x = x := by unfold fmax; simp
    rw [hxx]
    rcases foldl_fmax_choice t x with h | h
    · rw [h]; exact List.mem_cons_self x t
    · exact List.mem_cons_of_mem x h

theorem findIndex_lt_length (l : List ℚ) (hne : l ≠ []) :
    findIndex l < l.length := by
  apply List.findIdx_lt_length_of_exists
  exact ⟨listMax l, listMax_mem l hne, by simp⟩

/-- C6: for a stack of two bit-identical exposures with equal exposure times,
`deltaEV = lg t - lg t = 0`, hence the per-pixel outlier bound
`threshold1 = 0.7 * |deltaEV| = 0`; no pixel's `|logRatio| = 0` strictly
exceeds it, so ghost detection flags no grid cell at any nonnegative
threshold. -/
theorem C6_zero_ghosting (lg : ℚ → ℚ) (A B C : Array2Df) (t th : ℚ)
    (hth : 0 ≤ th) (i j : ℕ) :
    patchesMDR lg [A, A] [B, B] [C, C] [t, t] th i j = false := by
  unfold patchesMDR
  simp only [List.length_cons, List.length_nil]
  rw [List.any_eq_false]
  intro hh hmem
  intro hcontra
  obtain ⟨hd, hc⟩ := Bool.and_eq_true_iff.mp hcontra
  set h0 := findIndex ((List.range (0 + 1 + 1)).map
    (fun k => hueSquaredMean [A, A] [B, B] [C, C] k)) with hh0def
  have hlt : h0 < 2 := by
    have := findIndex_lt_length ((List.range (0 + 1 + 1)).map
      (fun k => hueSquaredMean [A, A] [B, B] [C, C] k)) (by simp)
    simpa using this
  have hhlt : hh < 2 := by
    have := List.mem_range.mp hmem
    omega
  have hget : ∀ n : ℕ, n < 2 → [t, t].getD n 0 = t := by
    intro n hn
    match n with
    | 0 => rfl
    | 1 => rfl
  have hgetA : ∀ n : ℕ, n < 2 → ([A, A].getD n default = A ∧
      [B, B].getD n default = B ∧ [C, C].getD n default = C) := by
    intro n hn
    match n with
    | 0 => exact ⟨rfl, rfl, rfl⟩
    | 1 => exact ⟨rfl, rfl, rfl⟩
  have h1 := hgetA h0 hlt
  have h2 := hgetA hh hhlt
  rw [h1.1, h1.2.1, h1.2.2, h2.1, h2.2.1, h2.2.2] at hc
  have hdz : deltaEVof lg [t, t] h0 hh = 0 := by
    unfold deltaEVof
    rw [hget h0 hlt, hget hh hhlt, sub_self]
  rw [hdz] at hc
  rw [comparePatches_self lg A B C i j _ _ th hth] at hc
  exact Bool.false_ne_true hc

/-- A 64×64 mid-gray frame, used by the C6 witness. -/
def gray64 : Array2Df := ⟨64, 64, fun _ _ => 32768⟩

/-- Witness for C6: two identical 64×64 mid-gray exposures with the same
exposure time produce zero flagged cells at threshold 1/2. -/
theorem C6_zero_ghosting_witness :
    patchesMDR (fun q => q) [gray64, gray64] [gray64, gray64]
      [gray64, gray64] [1/125, 1/125] (1/2) 0 0 = false :=
  C6_zero_ghosting (fun q => q) gray64 gray64 gray64
    (1/125) (1/2) (by norm_num) 0 0

/-- C2 (code evaluated at the failing input): for a 10×10 image and
`gridSize = 40` the per-cell pixel extent `10 / 40` is 0 in C integer
division, and ghost detection silently flags no cell for ANY pair of frame
contents and any nonnegative threshold: the cell loops are empty, the outlier
fraction is the degenerate `0/0` (NaN in the float source, 0 in ℚ, in both
cases not above the threshold), and no `DegenerateGrid` error exists anywhere
in the code — the call completes as if the input were clean. -/
theorem C2_degenerate_grid_silent (lg : ℚ → ℚ)
    (dR1 dG1 dB1 dR2 dG2 dB2 : ℕ → ℕ → ℚ)
    (expotimes : List ℚ) (th : ℚ) (hth : 0 ≤ th) (i j : ℕ) :
    (10 : ℕ) / gridSize = 0 ∧
    patchesMDR lg [Array2Df.mk 10 10 dR1, Array2Df.mk 10 10 dR2]
      [Array2Df.mk 10 10 dG1, Array2Df.mk 10 10 dG2]
      [Array2Df.mk 10 10 dB1, Array2Df.mk 10 10 dB2]
      expotimes th i j = false := by
  refine ⟨rfl, ?_⟩
  unfold patchesMDR
  simp only [List.length_cons, List.length_nil]
  rw [List.any_eq_false]
  intro hh _
  intro hcontra
  obtain ⟨hd, hc⟩ := Bool.and_eq_true_iff.mp hcontra
  rw [comparePatches_eq_false_of_count_zero _ _ _ _ _ _ _ _ _ _ _ _ _ hth] at hc
  · exact Bool.false_ne_true hc
  · unfold cellOutlierCount
    have hgy : (List.headD [Array2Df.mk 10 10 dR1, Array2Df.mk 10 10 dR2]
      default).rows / gridSize = 0 := by simp [gridSize]
    rw [hgy]
    simp

/-- Witness for C2 at concrete 10×10 frames, exposure times and threshold. -/
theorem C2_degenerate_grid_silent_witness :
    (10 : ℕ) / gridSize = 0 ∧
    patchesMDR (fun q => q)
      [Array2Df.mk 10 10 (fun _ _ => 1), Array2Df.mk 10 10 (fun _ _ => 7)]
      [Array2Df.mk 10 10 (fun _ _ => 2), Array2Df.mk 10 10 (fun _ _ => 8)]
      [Array2Df.mk 10 10 (fun _ _ => 3), Array2Df.mk 10 10 (fun _ _ => 9)]
      [1, 2] (1/2) 0 0 = false :=
  C2_degenerate_grid_silent (fun q => q) (fun _ _ => 1) (fun _ _ => 2)
    (fun _ _ => 3) (fun _ _ => 7) (fun _ _ => 8) (fun _ _ => 9)
    [1, 2] (1/2) (by norm_num) 0 0

/-! ### Ghost correction (C8) -/

/-- An RGB frame: three sample planes, as the per-exposure triple
`(listmdrR[h], listmdrG[h], listmdrB[h])`. -/
def FrameRGB : Type := Array2Df × Array2Df × Array2Df

instance : Inhabited FrameRGB := ⟨(default, default, default)⟩

/-- RGB value of one pixel of a frame. -/
def pixelRGB (f : FrameRGB) (x y : ℕ) : ℚ × ℚ × ℚ :=
  (f.1.data x y, f.2.1.data x y, f.2.2.data x y)

/-- Whether pixel `(x, y)` lies in grid cell `(i, j)` of extent `gX × gY`
(the loop ranges `i*gX ≤ x < (i+1)*gX`, `j*gY ≤ y < (j+1)*gY` shared by
`comparePatches` and `copyPatch`). -/
def cellContains (i j gX gY x y : ℕ) : Bool :=
  decide (i * gX ≤ x) && decide (x < (i + 1) * gX) &&
  decide (j * gY ≤ y) && decide (y < (j + 1) * gY)

/-- Average lightness of a cell of the reference frame (first loop of
`copyPatch` over `Array2Df`, lines 505-513). -/
def cellAvgLightness (R1 G1 B1 : Array2Df) (i j gX gY : ℕ) : ℚ :=
  sumGrid gX gY (fun dx dy =>
    (rgb2hsl (R1.data (i * gX + dx) (j * gY + dy))
      (G1.data (i * gX + dx) (j * gY + dy))
      (B1.data (i * gX + dx) (j * gY + dy))).2.2) / ((gX * gY : ℕ) : ℚ)

/-- The value written into the target planes for one pixel of a copied patch
(second loop of `copyPatch`, lines 516-534): the reference pixel is converted
to HSL, its lightness is scaled by `sf` and clamped to `max_lightness`,
converted back to RGB, and each channel clamped to `[0, max_rgb]`. -/
def copyPatchPixel (R1 G1 B1 : Array2Df) (sf : ℚ) (x y : ℕ) : ℚ × ℚ × ℚ :=
  let hsl := rgb2hsl (R1.data x y) (G1.data x y) (B1.data x y)
  let l := fmin (hsl.2.2 * sf) max_lightness
  let rgb := hsl2rgb hsl.1 hsl.2.1 l
  (fmax 0 (fmin rgb.1 max_rgb), fmax 0 (fmin rgb.2.1 max_rgb),
    fmax 0 (fmin rgb.2.2 max_rgb))

/-- One `copyPatch` call (lines 501-536): if the reference cell's average
lightness is at or beyond the saturation bounds (`>= max_lightness` or
`<= 0`) the target is returned unchanged; otherwise every pixel of cell
`(i, j)` of the target is overwritten with the rescaled reference pixel. -/
def copyPatch (src tgt : FrameRGB) (i j gX gY : ℕ) (sf : ℚ) : FrameRGB :=
  let avgL := cellAvgLightness src.1 src.2.1 src.2.2 i j gX gY
  if max_lightness ≤ avgL ∨ avgL ≤ 0 then tgt
  else
    (⟨tgt.1.cols, tgt.1.rows, fun x y =>
        if cellContains i j gX gY x y then
          (copyPatchPixel src.1 src.2.1 src.2.2 sf x y).1
        else tgt.1.data x y⟩,
     ⟨tgt.2.1.cols, tgt.2.1.rows, fun x y =>
        if cellContains i j gX gY x y then
          (copyPatchPixel src.1 src.2.1 src.2.2 sf x y).2.1
        else tgt.2.1.data x y⟩,
     ⟨tgt.2.2.cols, tgt.2.2.rows, fun x y =>
        if cellContains i j gX gY x y then
          (copyPatchPixel src.1 src.2.1 src.2.2 sf x y).2.2
        else tgt.2.2.data x y⟩)

/-- All `copyPatch` calls applied to one non-reference frame: the double loop
over the `gridSize × gridSize` flag grid inside `copyPatches` (lines 570-580),
applied to the target frame with the reference frame as source. -/
def correctFrame (src : FrameRGB) (patches : ℕ → ℕ → Bool) (gX gY : ℕ)
    (sf : ℚ) (tgt : FrameRGB) : FrameRGB :=
  (List.range gridSize).foldl (fun acc j =>
    (List.range gridSize).foldl (fun acc2 i =>
      if patches i j then copyPatch src acc2 i j gX gY sf else acc2) acc) tgt

/-- `copyPatches` over `Array2Df` lists (lines 563-581): every exposure other
than the reference `h0` has its flagged cells rewritten from the reference
frame with its own scale factor; the reference frame itself is skipped
(`if (h == h0) continue`). -/
def copyPatches (frames : List FrameRGB) (patches : ℕ → ℕ → Bool) (h0 : ℕ)
    (sf : ℕ → ℚ) (gX gY : ℕ) : List FrameRGB :=
  frames.mapIdx (fun h f => if h = h0 then f else
    correctFrame (frames.getD h0 default) patches gX gY (sf h) f)

theorem copyPatch_outside (src tgt : FrameRGB) (i j gX gY : ℕ) (sf : ℚ)
    (x y : ℕ) (hout : cellContains i j gX gY x y = false) :
    pixelRGB (copyPatch src tgt i j gX gY sf) x y = pixelRGB tgt x y := by
  simp only [copyPatch]
  by_cases hsat : max_lightness ≤ cellAvgLightness src.1 src.2.1 src.2.2 i j gX gY ∨
      cellAvgLightness src.1 src.2.1 src.2.2 i j gX gY ≤ 0
  · rw [if_pos hsat]
  · rw [if_neg hsat]
    simp [pixelRGB, hout]

theorem copyPatch_saturated (src tgt : FrameRGB) (i j gX gY : ℕ) (sf : ℚ)
    (hsat : max_lightness ≤ cellAvgLightness src.1 src.2.1 src.2.2 i j gX gY ∨
      cellAvgLightness src.1 src.2.1 src.2.2 i j gX gY ≤ 0) :
    copyPatch src tgt i j gX gY sf = tgt := by
  unfold copyPatch
  rw [if_pos hsat]

theorem cellContains_unique (i j i' j' gX gY x y : ℕ)
    (h1 : cellContains i j gX gY x y = true)
    (h2 : cellContains i' j' gX gY x y = true) : i = i' ∧ j = j' := by
  unfold cellContains at h1 h2
  simp only [Bool.and_eq_true, decide_eq_true_iff] at h1 h2
  obtain ⟨⟨⟨ha1, ha2⟩, ha3⟩, ha4⟩ := h1
  obtain ⟨⟨⟨hb1, hb2⟩, hb3⟩, hb4⟩ := h2
  constructor
  · by_contra hne
    rcases Nat.lt_or_ge i i' with hlt | hge
    · have : (i + 1) * gX ≤ i' * gX := Nat.mul_le_mul_right gX hlt
      omega
    · have hlt : i' < i := by omega
      have : (i' + 1) * gX ≤ i * gX := Nat.mul_le_mul_right gX hlt
      omega
  · by_contra hne
    rcases Nat.lt_or_ge j j' with hlt | hge
    · have : (j + 1) * gY ≤ j' * gY := Nat.mul_le_mul_right gY hlt
      omega
    · have hlt : j' < j := by omega
      have : (j' + 1) * gY ≤ j * gY := Nat.mul_le_mul_right gY hlt
      omega

theorem foldl_pixel_eq {β : Type} (L : List β) (g : FrameRGB → β → FrameRGB)
    (x y : ℕ)
    (hstep : ∀ acc n, n ∈ L → pixelRGB (g acc n) x y = pixelRGB acc x y) :
    ∀ init, pixelRGB (L.foldl g init) x y = pixelRGB init x y := by
  induction L with
  | nil => intro init; rfl
  | cons a t ih =>
    intro init
    rw [List.foldl_cons]
    rw [ih (fun acc n hn => hstep acc n (List.mem_cons_of_mem a hn)) (g init a)]
    exact hstep init a (List.mem_cons_self a t)

theorem correctFrame_pixel (src : FrameRGB) (patches : ℕ → ℕ → Bool)
    (gX gY : ℕ) (sf : ℚ) (tgt : FrameRGB) (x y : ℕ)
    (hcond : ∀ i' j', patches i' j' = true →
      cellContains i' j' gX gY x y = true →
      (max_lightness ≤ cellAvgLightness src.1 src.2.1 src.2.2 i' j' gX gY ∨
        cellAvgLightness src.1 src.2.1 src.2.2 i' j' gX gY ≤ 0)) :
    pixelRGB (correctFrame src patches gX gY sf tgt) x y = pixelRGB tgt x y := by
  unfold correctFrame
  apply foldl_pixel_eq
  intro acc jj _
  apply foldl_pixel_eq
  intro acc2 ii _
  by_cases hp : patches ii jj = true
  · rw [if_pos hp]
    by_cases hcc : cellContains ii jj gX gY x y = true
    · rw [copyPatch_saturated src acc2 ii jj gX gY sf (hcond ii jj hp hcc)]
    · exact copyPatch_outside src acc2 ii jj gX gY sf x y
        (Bool.not_eq_true _ ▸ hcc)
  · rw [if_neg hp]

theorem copyPatches_getD (frames : List FrameRGB) (patches : ℕ → ℕ → Bool)
    (h0 : ℕ) (sf : ℕ → ℚ) (gX gY : ℕ) (hh : ℕ) :
    (copyPatches frames patches h0 sf gX gY).getD hh default =
      if hh < frames.length then
        (if hh = h0 then frames.getD hh default
         else correctFrame (frames.getD h0 default) patches gX gY (sf hh)
           (frames.getD hh default))
      else default := by
  simp only [copyPatches, List.getD_eq_getElem?_getD, List.getElem?_mapIdx]
  by_cases hlt : hh < frames.length
  · rw [List.getElem?_eq_getElem hlt, if_pos hlt]
    simp only [Option.map_some', Option.getD_some]
  · rw [List.getElem?_eq_none (le_of_not_lt hlt), if_neg hlt]
    simp only [Option.map_none', Option.getD_none]

/-- C8: during ghost correction, `copyPatches` leaves the reference exposure
`h0` unchanged; every pixel of a grid cell not flagged in the patch grid is
left unchanged in every exposure; and a flagged cell is left unchanged in a
non-reference exposure whenever the reference cell's average lightness is at
or beyond the saturation bounds (`≥ max_lightness` or `≤ 0`). -/
theorem C8_copy_patches_frame (frames : List FrameRGB)
    (patches : ℕ → ℕ → Bool) (h0 : ℕ) (sf : ℕ → ℚ) (gX gY : ℕ) :
    (copyPatches frames patches h0 sf gX gY).get? h0 = frames.get? h0 ∧
    (∀ hh i j x y, patches i j = false → cellContains i j gX gY x y = true →
      pixelRGB ((copyPatches frames patches h0 sf gX gY).getD hh default) x y =
        pixelRGB (frames.getD hh default) x y) ∧
    (∀ hh i j x y, hh ≠ h0 → patches i j = true →
      cellContains i j gX gY x y = true →
      (max_lightness ≤ cellAvgLightness (frames.getD h0 default).1
          (frames.getD h0 default).2.1 (frames.getD h0 default).2.2 i j gX gY ∨
        cellAvgLightness (frames.getD h0 default).1
          (frames.getD h0 default).2.1
          (frames.getD h0 default).2.2 i j gX gY ≤ 0) →
      pixelRGB ((copyPatches frames patches h0 sf gX gY).getD hh default) x y =
        pixelRGB (frames.getD hh default) x y) := by
  refine ⟨?_, ?_, ?_⟩
  · unfold copyPatches
    rw [List.get?_eq_getElem?, List.get?_eq_getElem?, List.getElem?_mapIdx]
    cases frames[h0]? with
    | none => rfl
    | some f => simp
  · intro hh i j x y hpf hcc
    rw [copyPatches_getD]
    by_cases hlt : hh < frames.length
    · rw [if_pos hlt]
      by_cases heq : hh = h0
      · rw [if_pos heq]
      · rw [if_neg heq]
        apply correctFrame_pixel
        intro i' j' hp' hcc'
        obtain ⟨rfl, rfl⟩ := cellContains_unique i' j' i j gX gY x y hcc' hcc
        rw [hpf] at hp'
        exact absurd hp' (by simp)
    · rw [if_neg hlt]
      have : frames.getD hh default = default := by
        rw [List.getD_eq_getElem?_getD, List.getElem?_eq_none (le_of_not_lt hlt)]
        rfl
      rw [this]
  · intro hh i j x y hne hpt hcc hsat
    rw [copyPatches_getD]
    by_cases hlt : hh < frames.length
    · rw [if_pos hlt, if_neg hne]
      apply correctFrame_pixel
      intro i' j' hp' hcc'
      obtain ⟨rfl, rfl⟩ := cellContains_unique i' j' i j gX gY x y hcc' hcc
      exact hsat
    · rw [if_neg hlt]
      have : frames.getD hh default = default := by
        rw [List.getD_eq_getElem?_getD, List.getElem?_eq_none (le_of_not_lt hlt)]
        rfl
      rw [this]

/-- A 1×1 demonstration frame pair for the C8 witness. -/
def demoFrameA : FrameRGB :=
  (⟨1, 1, fun _ _ => 1⟩, ⟨1, 1, fun _ _ => 2⟩, ⟨1, 1, fun _ _ => 3⟩)

/-- Second 1×1 demonstration frame for the C8 witness. -/
def demoFrameB : FrameRGB :=
  (⟨1, 1, fun _ _ => 4⟩, ⟨1, 1, fun _ _ => 5⟩, ⟨1, 1, fun _ _ => 6⟩)

/-- Witness for C8: with an all-false flag grid, pixel (0,0) of the
non-reference exposure 1 is unchanged. -/
theorem C8_copy_patches_frame_witness :
    pixelRGB ((copyPatches [demoFrameA, demoFrameB] (fun _ _ => false) 0
        (fun _ => 2) 1 1).getD 1 default) 0 0 =
      pixelRGB ([demoFrameA, demoFrameB].getD 1 default) 0 0 :=
  (C8_copy_patches_frame [demoFrameA, demoFrameB] (fun _ _ => false) 0
    (fun _ => 2) 1 1).2.1 1 0 0 0 0 rfl (by decide)

/-! ### Manual anti-ghosting blend (C10) -/

/-- An anti-ghosting mask: only its per-pixel alpha is ever read
(`qAlpha(mask.pixel(i, j))`, an integer in `0..255`). -/
def MaskImage : Type := ℕ → ℕ → ℕ

/-- The MDR `blend` (lines 689-751): at every pixel where either mask has
nonzero alpha, the source pixel is converted to HSL, its lightness scaled by
the global ratio `averageLightness(target) / averageLightness(source)` and
clamped to the larger of the two frames' maximum lightness, converted back to
RGB, clamped to `[0, max_rgb]`, and linearly interpolated into the target
with the mask alpha (the good-image mask taking priority); pixels where both
masks are fully transparent are skipped. -/
def blendMDR (tgt src : FrameRGB) (mask maskGood : MaskImage) : FrameRGB :=
  let sf := averageLightness tgt.1 tgt.2.1 tgt.2.2 /
    averageLightness src.1 src.2.1 src.2.2
  let maxL := fmax (maxLightnessF tgt.1 tgt.2.1 tgt.2.2)
    (maxLightnessF src.1 src.2.1 src.2.2)
  let blendPix := fun (x y : ℕ) =>
    let alpha : ℚ := if maskGood x y = 0 then (mask x y : ℚ) / 255
      else (maskGood x y : ℚ) / 255
    let hsl := rgb2hsl (src.1.data x y) (src.2.1.data x y) (src.2.2.data x y)
    let l := fmin (hsl.2.2 * sf) maxL
    let rgb := hsl2rgb hsl.1 hsl.2.1 l
    let r2 := fmax 0 (fmin rgb.1 max_rgb)
    let g2 := fmax 0 (fmin rgb.2.1 max_rgb)
    let b2 := fmax 0 (fmin rgb.2.2 max_rgb)
    ((1 - alpha) * tgt.1.data x y + alpha * r2,
     (1 - alpha) * tgt.2.1.data x y + alpha * g2,
     (1 - alpha) * tgt.2.2.data x y + alpha * b2)
  (⟨tgt.1.cols, tgt.1.rows, fun x y =>
      if mask x y = 0 ∧ maskGood x y = 0 then tgt.1.data x y
      else (blendPix x y).1⟩,
   ⟨tgt.2.1.cols, tgt.2.1.rows, fun x y =>
      if mask x y = 0 ∧ maskGood x y = 0 then tgt.2.1.data x y
      else (blendPix x y).2.1⟩,
   ⟨tgt.2.2.cols, tgt.2.2.rows, fun x y =>
      if mask x y = 0 ∧ maskGood x y = 0 then tgt.2.2.data x y
      else (blendPix x y).2.2⟩)

/-- `HdrCreationManager::doAntiGhosting` (lines 1585-1617), MDR branch: every
exposure except `goodImageIndex` is blended in place with the good exposure
as the read-only source, using the target's own mask and the good exposure's
mask. -/
def doAntiGhosting (frames : List FrameRGB) (masks : List MaskImage)
    (good : ℕ) : List FrameRGB :=
  frames.mapIdx (fun idx f => if idx = good then f else
    blendMDR f (frames.getD good default)
      (masks.getD idx (fun _ _ => 0)) (masks.getD good (fun _ _ => 0)))

/-- C10: `doAntiGhosting` never modifies the exposure at `goodImageIndex` —
the blend loop skips that index, writing only into the other exposures and
reading the good exposure solely as a blend source. -/
theorem C10_good_image_preserved (frames : List FrameRGB)
    (masks : List MaskImage) (good : ℕ) :
    (doAntiGhosting frames masks good).get? good = frames.get? good := by
  unfold doAntiGhosting
  rw [List.get?_eq_getElem?, List.get?_eq_getElem?, List.getElem?_mapIdx]
  cases frames[good]? with
  | none => rfl
  | some f => simp

/-! ### Reference selection (C3) -/

theorem le_listMax (l : List ℚ) (x : ℚ) (hx : x ∈ l) : x ≤ listMax l := by
  cases l with
  | nil => cases hx
  | cons c t =>
    unfold listMax
    simp only [List.headD_cons, List.foldl_cons]
    have hcc : fmax c c = c := by unfold fmax; simp
    rw [hcc]
    rcases List.mem_cons.mp hx with rfl | hmem
    · exact le_foldl_fmax t x
    · exact mem_le_foldl_fmax t x hmem c

theorem getD_findIndex (l : List ℚ) (hne : l ≠ []) :
    l.getD (findIndex l) 0 = listMax l := by
  have hlt : findIndex l < l.length := findIndex_lt_length l hne
  rw [List.getD_eq_getElem?_getD, List.getElem?_eq_getElem hlt,
    Option.getD_some]
  have := @List.findIdx_getElem ℚ (fun x => decide (x = listMax l)) l hlt
  simpa using this

/-- A 1×1 frame holding the constant sample 1, for the C3 scenario. -/
def onesA : Array2Df := ⟨1, 1, fun _ _ => 1⟩

/-- A 1×1 frame holding the constant sample 2, for the C3 scenario. -/
def twosA : Array2Df := ⟨1, 1, fun _ _ => 2⟩

/-- C3 scenario red planes: three 1×1 exposures. -/
def scenR : List Array2Df := [onesA, onesA, onesA]

/-- C3 scenario green planes: exposures 0 and 1 are the green-dominant color
`(1,2,1)`; exposure 2 is the blue-dominant color `(1,1,2)` — a uniform hue
rotation (1/3 → 2/3) relative to the two agreeing exposures. -/
def scenG : List Array2Df := [twosA, twosA, onesA]

/-- C3 scenario blue planes. -/
def scenB : List Array2Df := [onesA, onesA, twosA]

/-- The `HE` scores of the C3 scenario, as computed in
`doAutoAntiGhostingMDR` (lines 1651-1654). -/
def scenHE : List ℚ := (List.range 3).map (fun k => hueSquaredMean scenR scenG scenB k)

/-- C3: `findIndex` selects an index of maximal score (for any nonempty score
list the selected entry is ≥ every entry); and in the synthetic scenario of
three exposures where exposure 2 carries a uniformly rotated hue against the
two agreeing exposures, `HE[2]` is strictly the largest and the selected
reference index is 2. -/
theorem C3_reference_selection :
    (∀ l : List ℚ, l ≠ [] → findIndex l < l.length ∧
      ∀ k, k < l.length → l.getD k 0 ≤ l.getD (findIndex l) 0) ∧
    scenHE.getD 0 0 < scenHE.getD 2 0 ∧ scenHE.getD 1 0 < scenHE.getD 2 0 ∧
    findIndex scenHE = 2 := by
  have hHE : scenHE = [1/81, 1/81, 4/81] := by
    norm_num [scenHE, hueSquaredMean, sumGrid, pixelHue, hueMean, rgb2hsl,
      fmax, fmin, scenR, scenG, scenB, onesA, twosA, List.range_succ]
  refine ⟨?_, ?_, ?_, ?_⟩
  · intro l hne
    refine ⟨findIndex_lt_length l hne, ?_⟩
    intro k hk
    rw [getD_findIndex l hne]
    apply le_listMax
    rw [List.getD_eq_getElem?_getD, List.getElem?_eq_getElem hk,
      Option.getD_some]
    exact List.getElem_mem hk
  · rw [hHE]; norm_num
  · rw [hHE]; norm_num
  · rw [hHE]
    norm_num [findIndex, listMax, List.findIdx_cons, fmax]

/-- Witness for C3's general argmax property at the concrete score list
`[1, 2]`. -/
theorem C3_reference_selection_witness :
    findIndex ([1, 2] : List ℚ) < ([1, 2] : List ℚ).length ∧
    ∀ k, k < ([1, 2] : List ℚ).length →
      ([1, 2] : List ℚ).getD k 0 ≤
        ([1, 2] : List ℚ).getD (findIndex ([1, 2] : List ℚ)) 0 :=
  C3_reference_selection.1 ([1, 2] : List ℚ) (by simp)

/-! ### HSL round trip (C4) -/

/-- C4, counterexample: the pure-red triple `(1, 0, 0)` has lightness
`1/2 > 0` and delta `1 > 0`, yet its computed hue is exactly `1.0`
(`rgb2hsl` returns `h = (5 + b2)/6 = 1` when green and blue both equal the
minimum), so `hsl2rgb` computes sextant `(int)(h*6) = 6`, falls through the
`switch`, and returns the gray `(1/2, 1/2, 1/2)` instead of the original
color — also in float arithmetic, where every quantity here is exact. -/
theorem C4_roundtrip_counterexample :
    0 < lightnessRGB 1 0 0 ∧ minRGB 1 0 0 < maxRGB 1 0 0 ∧
    rgb2hsl 1 0 0 = (1, 1, 1/2) ∧
    roundTrip 1 0 0 = (1/2, 1/2, 1/2) ∧
    roundTrip 1 0 0 ≠ ((1 : ℚ), (0 : ℚ), (0 : ℚ)) := by
  refine ⟨by norm_num [lightnessRGB, minRGB, maxRGB, fmax, fmin],
    by norm_num [minRGB, maxRGB, fmax, fmin],
    by norm_num [rgb2hsl, fmax, fmin],
    by norm_num [roundTrip, rgb2hsl, hsl2rgb, fmax, fmin, cTrunc], ?_⟩
  have h : roundTrip 1 0 0 = (1/2, 1/2, 1/2) := by
    norm_num [roundTrip, rgb2hsl, hsl2rgb, fmax, fmin, cTrunc]
  rw [h]
  intro hcon
  have := congrArg Prod.fst hcon
  norm_num at this

theorem hsl2rgb_sextant (h s l v : ℚ)
    (hveq : (if l ≤ 1/2 then l * (1 + s) else l + s - l * s) = v)
    (hv : 0 < v) (n : ℕ) (hn : n < 6)
    (hfl : (n : ℚ) ≤ h * 6) (hfu : h * 6 < n + 1) :
    hsl2rgb h s l =
      (let m := l + l - v
       let vsf := v * ((v - m) / v) * (h * 6 - n)
       match n with
       | 0 => (v, m + vsf, m)
       | 1 => (v - vsf, v, m)
       | 2 => (m, v, m + vsf)
       | 3 => (m, v - vsf, v)
       | 4 => (m + vsf, m, v)
       | _ => (v, m, v - vsf)) := by
  have hfloor : ⌊h * 6⌋ = (n : ℤ) := by
    rw [Int.floor_eq_iff]
    constructor
    · exact_mod_cast hfl
    · push_cast
      exact hfu
  have htr : cTrunc (h * 6) = (n : ℤ) := by
    unfold cTrunc
    rw [if_neg, hfloor]
    push_neg
    calc (0 : ℚ) ≤ (n : ℚ) := by positivity
    _ ≤ h * 6 := hfl
  simp only [hsl2rgb]
  rw [hveq, if_pos hv, htr]
  interval_cases n <;> norm_num

theorem fmax_choice (a b : ℚ) : fmax a b = a ∨ fmax a b = b := by
  unfold fmax
  split
  · exact Or.inr rfl
  · exact Or.inl rfl

theorem fmin_choice (a b : ℚ) : fmin a b = a ∨ fmin a b = b := by
  unfold fmin
  split
  · exact Or.inl rfl
  · exact Or.inr rfl

theorem roundTrip_exact (r g b : ℚ)
    (hl : 0 < lightnessRGB r g b) (hd : minRGB r g b < maxRGB r g b)
    (hl1 : lightnessRGB r g b ≠ 1)
    (hgb : ¬(g = minRGB r g b ∧ b = minRGB r g b)) :
    roundTrip r g b = (r, g, b) := by
  simp only [lightnessRGB, minRGB, maxRGB] at hl hd hl1 hgb
  set v := fmax (fmax r g) b with hvdef
  set m := fmin (fmin r g) b with hmdef
  have hrv_le : r ≤ v := le_trans (le_fmax_left r g) (le_fmax_left _ b)
  have hgv_le : g ≤ v := le_trans (le_fmax_right r g) (le_fmax_left _ b)
  have hbv_le : b ≤ v := le_fmax_right _ b
  have hmr : m ≤ r := le_trans (fmin_le_left _ b) (fmin_le_left r g)
  have hmg : m ≤ g := le_trans (fmin_le_left _ b) (fmin_le_right r g)
  have hmb : m ≤ b := fmin_le_right _ b
  have hvm : 0 < v - m := by linarith
  have hv0 : 0 < v := by linarith
  have hnl : ¬((m + v) / 2 ≤ 0) := hl.not_le  -- hmm placeholder, fix below
  have hvm_ne : v - m ≠ 0 := ne_of_gt hvm
  have hv_ne : v ≠ 0 := ne_of_gt hv0
  have v_cases : v = r ∨ v = g ∨ v = b := by
    rcases fmax_choice (fmax r g) b with h | h
    · rcases fmax_choice r g with h2 | h2
      · left; rw [hvdef, h, h2]
      · right; left; rw [hvdef, h, h2]
    · right; right; rw [hvdef, h]
  have m_cases : m = r ∨ m = g ∨ m = b := by
    rcases fmin_choice (fmin r g) b with h | h
    · rcases fmin_choice r g with h2 | h2
      · left; rw [hmdef, h, h2]
      · right; left; rw [hmdef, h, h2]
    · right; right; rw [hmdef, h]
  have hveq : (if (m + v) / 2 ≤ 1/2 then
      ((m + v) / 2) * (1 + (v - m) /
        (if (m + v) / 2 ≤ 1/2 then v + m else 2 - v - m))
      else ((m + v) / 2) + (v - m) /
        (if (m + v) / 2 ≤ 1/2 then v + m else 2 - v - m)
        - ((m + v) / 2) * ((v - m) /
          (if (m + v) / 2 ≤ 1/2 then v + m else 2 - v - m))) = v := by
    by_cases hhalf : (m + v) / 2 ≤ 1/2
    · rw [if_pos hhalf, if_pos hhalf]
      have hne : v + m ≠ 0 := by intro hc; apply absurd hl; rw [hmdef, hvdef] at hc ⊢; linarith
      field_simp
      ring
    · rw [if_neg hhalf, if_neg hhalf]
      have hne : 2 - v - m ≠ 0 := by
        intro hc
        exact hl1 (by linarith)
      field_simp
      ring
  show hsl2rgb (rgb2hsl r g b).1 (rgb2hsl r g b).2.1 (rgb2hsl r g b).2.2 =
    (r, g, b)
  by_cases hrv : r = v
  · by_cases hgm : g = m
    · -- branch 1: r max, g = b-min-companion; b > m since hgb excludes b = m
      have hbm : b ≠ m := fun hbm => hgb ⟨hgm, hbm⟩
      have hbgt : m < b := lt_of_le_of_ne hmb (Ne.symm hbm)
      have hr2h : rgb2hsl r g b =
          ((5 + (v - b) / (v - m)) / 6,
           (v - m) / (if (m + v) / 2 ≤ 1/2 then v + m else 2 - v - m),
           (m + v) / 2) := by
        simp only [rgb2hsl]
        rw [← hvdef, ← hmdef, if_neg hnl, if_pos hvm, if_pos hrv, if_pos hgm]
      rw [hr2h]
      have heq6 : ((5 + (v - b) / (v - m)) / 6) * 6 = 5 + (v - b) / (v - m) := by
        ring
      have hfrac0 : (0 : ℚ) ≤ (v - b) / (v - m) :=
        div_nonneg (by linarith) (le_of_lt hvm)
      have hfrac1 : (v - b) / (v - m) < 1 := (div_lt_one hvm).mpr (by linarith)
      rw [hsl2rgb_sextant _ _ _ v hveq hv0 5 (by norm_num)
        (by rw [heq6]; push_cast; linarith)
        (by rw [heq6]; push_cast; linarith)]
      simp only [Prod.mk.injEq]
      refine ⟨hrv.symm, ?_, ?_⟩
      · rw [hgm]; ring
      · rw [heq6]
        push_cast
        field_simp
        ring
    · -- branch 2: r max, g not min, so b is the min
      have hbm : b = m := by
        rcases m_cases with h | h | h
        · exfalso; rw [hrv] at h; linarith
        · exact absurd h.symm hgm
        · exact h.symm
      have hggt : m < g := lt_of_le_of_ne hmg (fun hc => hgm hc.symm)
      have hr2h : rgb2hsl r g b =
          ((1 - (v - g) / (v - m)) / 6,
           (v - m) / (if (m + v) / 2 ≤ 1/2 then v + m else 2 - v - m),
           (m + v) / 2) := by
        simp only [rgb2hsl]
        rw [← hvdef, ← hmdef, if_neg hnl, if_pos hvm, if_pos hrv, if_neg hgm]
      rw [hr2h]
      have heq6 : ((1 - (v - g) / (v - m)) / 6) * 6 = 1 - (v - g) / (v - m) := by
        ring
      by_cases hgv : g = v
      · have hzero : (v - g) / (v - m) = 0 := by rw [hgv, sub_self, zero_div]
        rw [hsl2rgb_sextant _ _ _ v hveq hv0 1 (by norm_num)
          (by rw [heq6, hzero]; push_cast; linarith)
          (by rw [heq6, hzero]; push_cast; linarith)]
        simp only [Prod.mk.injEq]
        refine ⟨?_, hgv.symm, ?_⟩
        · rw [heq6, hzero, hrv]
          push_cast
          ring
        · rw [hbm]; ring
      · have hglt : g < v := lt_of_le_of_ne hgv_le hgv
        have hfrac0 : 0 < (v - g) / (v - m) :=
          div_pos (by linarith) hvm
        have hfrac1 : (v - g) / (v - m) < 1 := (div_lt_one hvm).mpr (by linarith)
        rw [hsl2rgb_sextant _ _ _ v hveq hv0 0 (by norm_num)
          (by rw [heq6]; push_cast; linarith)
          (by rw [heq6]; push_cast; linarith)]
        simp only [Prod.mk.injEq]
        refine ⟨hrv.symm, ?_, ?_⟩
        · rw [heq6]
          push_cast
          field_simp <;> ring
        · rw [hbm]; ring
  · by_cases hgv : g = v
    · by_cases hbm : b = m
      · -- branch 3: g max, b min
        have hrlt : r < v := lt_of_le_of_ne hrv_le hrv
        have hr2h : rgb2hsl r g b =
            ((1 + (v - r) / (v - m)) / 6,
             (v - m) / (if (m + v) / 2 ≤ 1/2 then v + m else 2 - v - m),
             (m + v) / 2) := by
          simp only [rgb2hsl]
          rw [← hvdef, ← hmdef, if_neg hnl, if_pos hvm, if_neg hrv,
            if_pos hgv, if_pos hbm]
        rw [hr2h]
        have heq6 : ((1 + (v - r) / (v - m)) / 6) * 6 =
            1 + (v - r) / (v - m) := by ring
        by_cases hrm : r = m
        · have hone : (v - r) / (v - m) = 1 := by rw [hrm]; exact div_self hvm_ne
          rw [hsl2rgb_sextant _ _ _ v hveq hv0 2 (by norm_num)
            (by rw [heq6, hone]; push_cast; linarith)
            (by rw [heq6, hone]; push_cast; linarith)]
          simp only [Prod.mk.injEq]
          refine ⟨?_, hgv.symm, ?_⟩
          · rw [hrm]; ring
          · rw [heq6, hone, hbm]
            push_cast
            ring
        · have hrgt : m < r := lt_of_le_of_ne hmr (Ne.symm hrm)
          have hfrac0 : 0 < (v - r) / (v - m) := div_pos (by linarith) hvm
          have hfrac1 : (v - r) / (v - m) < 1 :=
            (div_lt_one hvm).mpr (by linarith)
          rw [hsl2rgb_sextant _ _ _ v hveq hv0 1 (by norm_num)
            (by rw [heq6]; push_cast; linarith)
            (by rw [heq6]; push_cast; linarith)]
          simp only [Prod.mk.injEq]
          refine ⟨?_, hgv.symm, ?_⟩
          · rw [heq6]
            push_cast
            field_simp <;> ring
          · rw [hbm]; ring
      · -- branch 4: g max, b not min, so r is the min
        have hrm : r = m := by
          rcases m_cases with h | h | h
          · exact h.symm
          · exfalso; rw [hgv] at h; linarith
          · exact absurd h.symm hbm
        have hbgt : m < b := lt_of_le_of_ne hmb (Ne.symm hbm)
        have hr2h : rgb2hsl r g b =
            ((3 - (v - b) / (v - m)) / 6,
             (v - m) / (if (m + v) / 2 ≤ 1/2 then v + m else 2 - v - m),
             (m + v) / 2) := by
          simp only [rgb2hsl]
          rw [← hvdef, ← hmdef, if_neg hnl, if_pos hvm, if_neg hrv,
            if_pos hgv, if_neg hbm]
        rw [hr2h]
        have heq6 : ((3 - (v - b) / (v - m)) / 6) * 6 =
            3 - (v - b) / (v - m) := by ring
        by_cases hbv : b = v
        · have hzero : (v - b) / (v - m) = 0 := by rw [hbv, sub_self, zero_div]
          rw [hsl2rgb_sextant _ _ _ v hveq hv0 3 (by norm_num)
            (by rw [heq6, hzero]; push_cast; linarith)
            (by rw [heq6, hzero]; push_cast; linarith)]
          simp only [Prod.mk.injEq]
          refine ⟨?_, ?_, hbv.symm⟩
          · rw [hrm]; ring
          · rw [heq6, hzero, hgv]
            push_cast
            ring
        · have hblt : b < v := lt_of_le_of_ne hbv_le hbv
          have hfrac0 : 0 < (v - b) / (v - m) := div_pos (by linarith) hvm
          have hfrac1 : (v - b) / (v - m) < 1 :=
            (div_lt_one hvm).mpr (by linarith)
          rw [hsl2rgb_sextant _ _ _ v hveq hv0 2 (by norm_num)
            (by rw [heq6]; push_cast; linarith)
            (by rw [heq6]; push_cast; linarith)]
          simp only [Prod.mk.injEq]
          refine ⟨?_, hgv.symm, ?_⟩
          · rw [hrm]; ring
          · rw [heq6]
            push_cast
            field_simp <;> ring
    · -- blue is the max
      have hbv : b = v := by
        rcases v_cases with h | h | h
        · exact absurd h.symm hrv
        · exact absurd h.symm hgv
        · exact h.symm
      by_cases hrm : r = m
      · -- branch 5: b max, r min
        have hglt : g < v := lt_of_le_of_ne hgv_le hgv
        have hr2h : rgb2hsl r g b =
            ((3 + (v - g) / (v - m)) / 6,
             (v - m) / (if (m + v) / 2 ≤ 1/2 then v + m else 2 - v - m),
             (m + v) / 2) := by
          simp only [rgb2hsl]
          rw [← hvdef, ← hmdef, if_neg hnl, if_pos hvm, if_neg hrv,
            if_neg hgv, if_pos hrm]
        rw [hr2h]
        have heq6 : ((3 + (v - g) / (v - m)) / 6) * 6 =
            3 + (v - g) / (v - m) := by ring
        by_cases hgm : g = m
        · have hone : (v - g) / (v - m) = 1 := by rw [hgm]; exact div_self hvm_ne
          rw [hsl2rgb_sextant _ _ _ v hveq hv0 4 (by norm_num)
            (by rw [heq6, hone]; push_cast; linarith)
            (by rw [heq6, hone]; push_cast; linarith)]
          simp only [Prod.mk.injEq]
          refine ⟨?_, ?_, hbv.symm⟩
          · rw [heq6, hone, hrm]
            push_cast
            ring
          · rw [hgm]; ring
        · have hggt : m < g := lt_of_le_of_ne hmg (Ne.symm hgm)
          have hfrac0 : 0 < (v - g) / (v - m) := div_pos (by linarith) hvm
          have hfrac1 : (v - g) / (v - m) < 1 :=
            (div_lt_one hvm).mpr (by linarith)
          rw [hsl2rgb_sextant _ _ _ v hveq hv0 3 (by norm_num)
            (by rw [heq6]; push_cast; linarith)
            (by rw [heq6]; push_cast; linarith)]
          simp only [Prod.mk.injEq]
          refine ⟨?_, ?_, hbv.symm⟩
          · rw [hrm]; ring
          · rw [heq6]
            push_cast
            field_simp <;> ring
      · -- branch 6: b max, r not min, so g is the min
        have hgm : g = m := by
          rcases m_cases with h | h | h
          · exact absurd h.symm hrm
          · exact h.symm
          · exfalso; rw [hbv] at h; linarith
        have hrgt : m < r := lt_of_le_of_ne hmr (Ne.symm hrm)
        have hrlt : r < v := lt_of_le_of_ne hrv_le hrv
        have hr2h : rgb2hsl r g b =
            ((5 - (v - r) / (v - m)) / 6,
             (v - m) / (if (m + v) / 2 ≤ 1/2 then v + m else 2 - v - m),
             (m + v) / 2) := by
          simp only [rgb2hsl]
          rw [← hvdef, ← hmdef, if_neg hnl, if_pos hvm, if_neg hrv,
            if_neg hgv, if_neg hrm]
        rw [hr2h]
        have heq6 : ((5 - (v - r) / (v - m)) / 6) * 6 =
            5 - (v - r) / (v - m) := by ring
        have hfrac0 : 0 < (v - r) / (v - m) := div_pos (by linarith) hvm
        have hfrac1 : (v - r) / (v - m) < 1 :=
          (div_lt_one hvm).mpr (by linarith)
        rw [hsl2rgb_sextant _ _ _ v hveq hv0 4 (by norm_num)
          (by rw [heq6]; push_cast; linarith)
          (by rw [heq6]; push_cast; linarith)]
        simp only [Prod.mk.injEq]
        refine ⟨?_, ?_, hbv.symm⟩
        · rw [heq6]
          push_cast
          field_simp <;> ring
        · rw [hgm]; ring

theorem lightnessT_const (c : ℚ) : lightnessT (c, c, c) = c := by
  simp [lightnessT, lightnessRGB, minRGB, maxRGB, fmin, fmax]

theorem roundTrip_degenerate (r g b : ℚ)
    (hdeg : lightnessRGB r g b ≤ 0 ∨ maxRGB r g b = minRGB r g b) :
    (rgb2hsl r g b).1 = 0 ∧ (rgb2hsl r g b).2.1 = 0 ∧
    lightnessT (roundTrip r g b) = lightnessRGB r g b := by
  simp only [lightnessRGB, minRGB, maxRGB] at hdeg
  set v := fmax (fmax r g) b with hvdef
  set m := fmin (fmin r g) b with hmdef
  by_cases hl0 : (m + v) / 2 ≤ 0
  · have hr2h : rgb2hsl r g b = (0, 0, (m + v) / 2) := by
      simp only [rgb2hsl]
      rw [← hvdef, ← hmdef, if_pos hl0]
    have hreq : roundTrip r g b = ((m + v) / 2, (m + v) / 2, (m + v) / 2) := by
      show hsl2rgb (rgb2hsl r g b).1 (rgb2hsl r g b).2.1 (rgb2hsl r g b).2.2 =
        ((m + v) / 2, (m + v) / 2, (m + v) / 2)
      rw [hr2h]
      simp only [hsl2rgb]
      have hhalf : (m + v) / 2 ≤ 1/2 := by linarith
      rw [if_pos hhalf, if_neg (by intro hc; rw [mul_one_add, mul_zero, add_zero] at hc; exact absurd hc (not_lt.mpr hl0))]
    refine ⟨by rw [hr2h], by rw [hr2h], ?_⟩
    rw [hreq, lightnessT_const]
    simp only [lightnessRGB, minRGB, maxRGB, ← hvdef, ← hmdef]
  · have hvm : v = m := hdeg.resolve_left hl0
    have hvm0 : ¬(0 < v - m) := by rw [hvm]; simp
    have hr2h : rgb2hsl r g b = (0, 0, (m + v) / 2) := by
      simp only [rgb2hsl]
      rw [← hvdef, ← hmdef, if_neg hl0, if_neg hvm0]
    have hl0' : 0 < (m + v) / 2 := lt_of_not_ge hl0
    have hveq0 : (if (m + v) / 2 ≤ 1/2 then ((m + v) / 2) * (1 + 0)
        else ((m + v) / 2) + 0 - ((m + v) / 2) * 0) = (m + v) / 2 := by
      split <;> ring
    have hreq : roundTrip r g b = ((m + v) / 2, (m + v) / 2, (m + v) / 2) := by
      show hsl2rgb (rgb2hsl r g b).1 (rgb2hsl r g b).2.1 (rgb2hsl r g b).2.2 =
        ((m + v) / 2, (m + v) / 2, (m + v) / 2)
      rw [hr2h]
      rw [hsl2rgb_sextant 0 0 ((m + v) / 2) ((m + v) / 2) hveq0 hl0' 0
        (by norm_num) (by norm_num) (by norm_num)]
      norm_num
      ring
    refine ⟨by rw [hr2h], by rw [hr2h], ?_⟩
    rw [hreq, lightnessT_const]
    simp only [lightnessRGB, minRGB, maxRGB, ← hvdef, ← hmdef]

/-- C4 (amended): for every RGB triple with lightness > 0 and delta > 0, the
round trip `hsl2rgb ∘ rgb2hsl` reproduces the triple exactly — except on two
boundary sets forced by the code: triples with lightness exactly 1 (the
saturation denominator `2 - v - m` vanishes) and triples whose green and blue
channels both equal the minimum (the computed hue is exactly 1.0, so
`hsl2rgb`'s sextant is 6 and the `switch` falls through).  For degenerate
inputs (lightness ≤ 0 or delta = 0) `rgb2hsl` returns hue = 0 and
saturation = 0 exactly, and the round trip reproduces the original
lightness. -/
theorem C4_roundtrip_amended (r g b : ℚ) :
    (0 < lightnessRGB r g b → minRGB r g b < maxRGB r g b →
      lightnessRGB r g b ≠ 1 →
      ¬(g = minRGB r g b ∧ b = minRGB r g b) →
      roundTrip r g b = (r, g, b)) ∧
    (lightnessRGB r g b ≤ 0 ∨ maxRGB r g b = minRGB r g b →
      (rgb2hsl r g b).1 = 0 ∧ (rgb2hsl r g b).2.1 = 0 ∧
      lightnessT (roundTrip r g b) = lightnessRGB r g b) :=
  ⟨fun hl hd hl1 hgb => roundTrip_exact r g b hl hd hl1 hgb,
   fun hdeg => roundTrip_degenerate r g b hdeg⟩

/-- Witness for C4 at the non-degenerate triple `(3, 2, 1)` and the
degenerate gray triple `(2, 2, 2)`. -/
theorem C4_roundtrip_witness :
    roundTrip 3 2 1 = (3, 2, 1) ∧
    ((rgb2hsl 2 2 2).1 = 0 ∧ (rgb2hsl 2 2 2).2.1 = 0 ∧
      lightnessT (roundTrip 2 2 2) = lightnessRGB 2 2 2) :=
  ⟨(C4_roundtrip_amended 3 2 1).1
      (by norm_num [lightnessRGB, minRGB, maxRGB, fmax, fmin])
      (by norm_num [minRGB, maxRGB, fmax, fmin])
      (by norm_num [lightnessRGB, minRGB, maxRGB, fmax, fmin])
      (by norm_num [minRGB, fmin]),
   (C4_roundtrip_amended 2 2 2).2
      (Or.inr (by norm_num [minRGB, maxRGB, fmax, fmin]))⟩
